import Mathlib

/-!
# Verification of the coffee UI core (Column / Button widgets)

Shallow embedding of the widget/layout/event subsystem of the repository:
`src/ui/core/widget/column.rs`, `src/ui/button.rs`.  Machine floats that the
source only ever holds at integral values (spacing as f32, 40.0, flex_grow)
are embedded as `Int`.  Types of the repository that are referenced by the
embedded files but whose own sources are not part of the snapshot
(`Style` builder methods, `Layout`, `Event`, `MouseCursor`, the `Hasher`)
are modelled from the spec, as marked in their doc comments.
-/

/-- A 2D point (graphics `Point`); coordinates embedded as `Int`. -/
structure Point where
  x : Int
  y : Int
  deriving DecidableEq, Repr

/-- Modelled from the spec: the graphics `Rectangle` (origin + size) used as a
Layout node's resolved bounds; `src/graphics/rectangle.rs` is not in the
snapshot. -/
structure Rect where
  x : Int
  y : Int
  width : Int
  height : Int
  deriving DecidableEq, Repr

/-- Cursor-inside-rectangle hit test (half-open on the far edges). -/
def Rect.contains (r : Rect) (p : Point) : Bool :=
  decide (r.x ≤ p.x) && decide (p.x < r.x + r.width) &&
  decide (r.y ≤ p.y) && decide (p.y < r.y + r.height)

/-- `stretch::style::Dimension`. -/
inductive Dimension where
  | undefined : Dimension
  | auto : Dimension
  | points : Int → Dimension
  | percent : Int → Dimension
  deriving DecidableEq, Repr

/-- A width/height pair (`stretch::geometry::Size<Dimension>`). -/
structure DimSize where
  width : Dimension
  height : Dimension
  deriving DecidableEq, Repr

/-- A per-edge rectangle of dimensions (`stretch::geometry::Rect<Dimension>`,
whose fields are named start/end/top/bottom in the source). -/
structure DimRect where
  left : Dimension
  right : Dimension
  top : Dimension
  bottom : Dimension
  deriving DecidableEq, Repr

/-- `stretch::style::FlexDirection`. -/
inductive FlexDirection where
  | row | column | rowReverse | columnReverse
  deriving DecidableEq, Repr

/-- `stretch::style::AlignItems` / `AlignSelf` values (the ui `Align`). -/
inductive Align where
  | auto | flexStart | center | flexEnd | stretchAlign
  deriving DecidableEq, Repr

/-- `stretch::style::JustifyContent` values (the ui `Justify`). -/
inductive Justify where
  | flexStart | center | flexEnd | spaceBetween | spaceAround | spaceEvenly
  deriving DecidableEq, Repr

/-- The subset of `stretch::style::Style` that the embedded code reads or
writes: flex direction, size, max size, margin, padding, alignment,
justification and flex-grow. -/
structure StretchStyle where
  flexDirection : FlexDirection
  size : DimSize
  maxSize : DimSize
  margin : DimRect
  padding : DimRect
  alignSelf : Align
  alignItems : Align
  justifyContent : Justify
  flexGrow : Int
  deriving DecidableEq, Repr

/-- `stretch::style::Style::default()`: auto sizes, undefined edges, zero
flex-grow, row direction. -/
def StretchStyle.default : StretchStyle where
  flexDirection := .row
  size := ⟨.auto, .auto⟩
  maxSize := ⟨.auto, .auto⟩
  margin := ⟨.undefined, .undefined, .undefined, .undefined⟩
  padding := ⟨.undefined, .undefined, .undefined, .undefined⟩
  alignSelf := .auto
  alignItems := .stretchAlign
  justifyContent := .flexStart
  flexGrow := 0

/-- The ui `Style`: a newtype over the layout engine's style
(`Style(stretch Style)`); the column code accesses the inner value as
`style.0`. -/
structure Style where
  val : StretchStyle
  deriving DecidableEq, Repr

namespace Style

/-- Modelled from the spec: `Style::default()` wraps the layout-engine
default style (`src/ui/core/style.rs` is not in the snapshot). -/
def default : Style := ⟨StretchStyle.default⟩

/-- Modelled from the spec: `fill_width` makes the widget fill the available
width ("fill available space", §3). -/
def fill_width (s : Style) : Style :=
  ⟨{ s.val with size := { s.val.size with width := .percent 100 } }⟩

/-- Modelled from the spec: `padding` sets the padding inset in pixels on
every edge of the wrapped style. -/
def padding (s : Style) (px : Nat) : Style :=
  ⟨{ s.val with padding := ⟨.points px, .points px, .points px, .points px⟩ }⟩

/-- Modelled from the spec: `width` sets a hard pixel width constraint. -/
def width (s : Style) (w : Nat) : Style :=
  ⟨{ s.val with size := { s.val.size with width := .points w } }⟩

/-- Modelled from the spec: `height` sets a hard pixel height constraint. -/
def height (s : Style) (h : Nat) : Style :=
  ⟨{ s.val with size := { s.val.size with height := .points h } }⟩

/-- Modelled from the spec: `max_width` sets the maximum width in pixels. -/
def max_width (s : Style) (w : Nat) : Style :=
  ⟨{ s.val with maxSize := { s.val.maxSize with width := .points w } }⟩

/-- Modelled from the spec: `max_height` sets the maximum height in pixels. -/
def max_height (s : Style) (h : Nat) : Style :=
  ⟨{ s.val with maxSize := { s.val.maxSize with height := .points h } }⟩

/-- Modelled from the spec: `align_self` overrides the parent-assigned
cross-axis alignment. -/
def align_self (s : Style) (a : Align) : Style :=
  ⟨{ s.val with alignSelf := a }⟩

/-- Modelled from the spec: `align_items` sets the cross-axis alignment of
the children. -/
def align_items (s : Style) (a : Align) : Style :=
  ⟨{ s.val with alignItems := a }⟩

/-- Modelled from the spec: `justify_content` sets the main-axis
distribution of the children. -/
def justify_content (s : Style) (j : Justify) : Style :=
  ⟨{ s.val with justifyContent := j }⟩

end Style

/-- The ui `Node`: a style plus an ordered sequence of child nodes (the ui
type wraps a `stretch` node carrying exactly this data). -/
inductive Node where
  | mk : StretchStyle → List Node → Node

/-- The style of a node (`node.0.style()`). -/
def Node.style : Node → StretchStyle
  | .mk s _ => s

/-- The children of a node. -/
def Node.children : Node → List Node
  | .mk _ cs => cs

/-- `node.0.set_style(style)`: replace the node's own style. -/
def Node.set_style : Node → StretchStyle → Node
  | .mk _ cs, s => .mk s cs

/-- `Node::with_children(style, children)`: build a node from a ui `Style`
and a list of child nodes. -/
def Node.with_children (s : Style) (cs : List Node) : Node :=
  .mk s.val cs

/-- Modelled from the spec: the ui `MouseCursor` hint returned by `draw`;
`OutOfBounds` is the default ("first non-default (`OutOfBounds`) hint", §4.4);
`src/ui/core/mouse_cursor.rs` is not in the snapshot. -/
inductive MouseCursor where
  | outOfBounds | idle | pointer | working | grab | grabbing
  deriving DecidableEq, Repr

/-- Modelled from the spec: the input `Event` routed down the tree; the
column code forwards it opaquely, the button reacts to press/release
(§4.2/§4.3); `src/ui/core/event.rs` is not in the snapshot. -/
inductive Event where
  | mousePressed | mouseReleased | cursorMoved
  deriving DecidableEq, Repr

/-- Modelled from the spec: a resolved `Layout` — a rectangle paired with an
ordered sequence of child layouts (§3); `layout.children()` is the child
sequence.  `src/ui/core/layout.rs` is not in the snapshot. -/
inductive Layout where
  | mk : Rect → List Layout → Layout

/-- The resolved bounds of a layout node. -/
def Layout.bounds : Layout → Rect
  | .mk r _ => r

/-- `layout.children()`. -/
def Layout.children : Layout → List Layout
  | .mk _ cs => cs

/-- Modelled from the spec: the `Hasher` is represented by the stream of
values fed to it (§4.5); two equal streams yield equal hash output for
equal-initial-state hashers.  Values are encoded as `Int` tokens. -/
abbrev HashStream := List Int

/-- Encoding of a `Dimension` into hash tokens. -/
def Dimension.tokens : Dimension → HashStream
  | .undefined => [0]
  | .auto => [1]
  | .points v => [2, v]
  | .percent v => [3, v]

/-- Encoding of a `Rect<Dimension>` into hash tokens. -/
def DimRect.tokens (r : DimRect) : HashStream :=
  r.left.tokens ++ r.right.tokens ++ r.top.tokens ++ r.bottom.tokens

/-- Numeric code of a `FlexDirection`. -/
def FlexDirection.code : FlexDirection → Int
  | .row => 0 | .column => 1 | .rowReverse => 2 | .columnReverse => 3

/-- Numeric code of an `Align`. -/
def Align.code : Align → Int
  | .auto => 0 | .flexStart => 1 | .center => 2 | .flexEnd => 3
  | .stretchAlign => 4

/-- Numeric code of a `Justify`. -/
def Justify.code : Justify → Int
  | .flexStart => 0 | .center => 1 | .flexEnd => 2 | .spaceBetween => 3
  | .spaceAround => 4 | .spaceEvenly => 5

/-- Modelled from the spec: `self.style.hash(state)` feeds every style field
to the hasher, encoded as the token stream appended for the style. -/
def Style.tokens (s : Style) : HashStream :=
  [s.val.flexDirection.code] ++ s.val.size.width.tokens ++
  s.val.size.height.tokens ++ s.val.maxSize.width.tokens ++
  s.val.maxSize.height.tokens ++ s.val.margin.tokens ++
  s.val.padding.tokens ++
  [s.val.alignSelf.code, s.val.alignItems.code, s.val.justifyContent.code,
   s.val.flexGrow]

/-- The behaviour of one type-erased leaf widget (a child `Element` whose
widget is not a `Column`): `column.rs` treats child widgets opaquely through
the `Widget` capability set, so a leaf is given by what its four capability
methods return.  The renderer argument is opaque and omitted. -/
structure LeafData (M : Type) where
  /-- What `child.widget.node(renderer)` returns. -/
  nodeOut : Node
  /-- What `child.widget.hash(state)` appends to the hash stream. -/
  hashOut : HashStream
  /-- What `child.widget.draw(renderer, layout, cursor_position)` returns. -/
  drawOut : Layout → Point → MouseCursor
  /-- What `child.widget.on_event(event, layout, cursor_position, messages)`
  appends to the messages sequence. -/
  emits : Event → Layout → Point → List M

/-- A widget tree as dispatched by `column.rs`: a `Column` node (style,
spacing, ordered children) or an opaque leaf `Element`. -/
inductive WTree (M : Type) where
  | column : Style → Nat → List (WTree M) → WTree M
  | leaf : LeafData M → WTree M

/-- The `Column` struct: a style, the inter-child spacing in pixels, and an
ordered sequence of child elements. -/
structure Column (M : Type) where
  style : Style
  spacing : Nat
  children : List (WTree M)

namespace Column

/-- `Column::new()`: default style made to fill the width, flex direction
set to column, zero spacing, no children. -/
def new : Column M :=
  let style := Style.default.fill_width
  { style := ⟨{ style.val with flexDirection := .column }⟩
    spacing := 0
    children := [] }

/-- `Column::padding`. -/
def padding (c : Column M) (px : Nat) : Column M :=
  { c with style := c.style.padding px }

/-- `Column::width`. -/
def width (c : Column M) (w : Nat) : Column M :=
  { c with style := c.style.width w }

/-- `Column::height`. -/
def height (c : Column M) (h : Nat) : Column M :=
  { c with style := c.style.height h }

/-- `Column::max_width`. -/
def max_width (c : Column M) (w : Nat) : Column M :=
  { c with style := c.style.max_width w }

/-- `Column::max_height`. -/
def max_height (c : Column M) (h : Nat) : Column M :=
  { c with style := c.style.max_height h }

/-- `Column::align_self`. -/
def align_self (c : Column M) (a : Align) : Column M :=
  { c with style := c.style.align_self a }

/-- `Column::align_items`. -/
def align_items (c : Column M) (a : Align) : Column M :=
  { c with style := c.style.align_items a }

/-- `Column::justify_content`. -/
def justify_content (c : Column M) (j : Justify) : Column M :=
  { c with style := c.style.justify_content j }

/-- `Column::push`: append a child element. -/
def push (c : Column M) (child : WTree M) : Column M :=
  { c with children := c.children ++ [child] }

/-- `From<Column> for Element`: the column as a tree node. -/
def toElement (c : Column M) : WTree M :=
  .column c.style c.spacing c.children

end Column

/-- Set `margin.bottom` of a node's own style to the given dimension
(the `style()` / mutate / `set_style()` sequence in `Column::node`). -/
def Node.setBottomMargin (n : Node) (d : Dimension) : Node :=
  n.set_style { n.style with margin := { n.style.margin with bottom := d } }

/-- Apply `f` to the last element of a list, if any (`children.last_mut()`
followed by a mutation in `Column::node`). -/
def modifyLast (f : Node → Node) : List Node → List Node
  | [] => []
  | [n] => [f n]
  | n :: ns => n :: modifyLast f ns

mutual
/-- `Widget::node` as implemented by `column.rs`: each child's node gets its
bottom margin set to the spacing, then the last child's bottom margin is
reset to `Undefined`, and the column's own style is put on top.  A leaf
contributes the node its widget returns. -/
def WTree.node : WTree M → Node
  | .leaf d => d.nodeOut
  | .column style spacing cs =>
      Node.with_children style
        (modifyLast (fun n => n.setBottomMargin .undefined)
          (WTree.nodeChildren spacing cs))
/-- The mapped child nodes of `Column::node`, before the last-margin reset:
every child node's bottom margin is set to `Points(spacing)`. -/
def WTree.nodeChildren : Nat → List (WTree M) → List Node
  | _, [] => []
  | spacing, c :: cs =>
      (WTree.node c).setBottomMargin (.points spacing)
        :: WTree.nodeChildren spacing cs
end

mutual
/-- `Widget::on_event` as implemented by `column.rs`, instrumented: the
first component is the messages sequence after dispatch (the source mutates
`messages` in place; here it is threaded), the second records, one entry
per `on_event` call in call order, the cursor position that call received.
A column zips its children with the layout's children pairwise and recurses
in child order; a leaf appends what its widget emits. -/
def WTree.on_event : WTree M → Layout → Event → Point → List M →
    List M × List Point
  | .leaf d, l, e, p, msgs => (msgs ++ d.emits e l p, [p])
  | .column _ _ cs, .mk _ ls, e, p, msgs =>
      let r := WTree.on_eventChildren cs ls e p msgs
      (r.1, p :: r.2)
/-- The zipped loop body of `Column::on_event`: iteration stops when either
the widget children or the layout children run out (Rust `zip`). -/
def WTree.on_eventChildren : List (WTree M) → List Layout → Event → Point →
    List M → List M × List Point
  | [], _, _, _, msgs => (msgs, [])
  | _ :: _, [], _, _, msgs => (msgs, [])
  | c :: cs, l :: ls, e, p, msgs =>
      let r := WTree.on_event c l e p msgs
      let rest := WTree.on_eventChildren cs ls e p r.1
      (rest.1, r.2 ++ rest.2)
end

mutual
/-- `Widget::draw` as implemented by `column.rs`: starting from
`MouseCursor::OutOfBounds`, the column zips children with layout children
and, for each child whose draw returns a non-default hint, overwrites the
accumulator with that hint; the final accumulator is returned.  The opaque
renderer is omitted. -/
def WTree.draw : WTree M → Layout → Point → MouseCursor
  | .leaf d, l, p => d.drawOut l p
  | .column _ _ cs, .mk _ ls, p => WTree.drawChildren cs ls p .outOfBounds
/-- The zipped loop of `Column::draw` with its `cursor` accumulator. -/
def WTree.drawChildren : List (WTree M) → List Layout → Point →
    MouseCursor → MouseCursor
  | [], _, _, cursor => cursor
  | _ :: _, [], _, cursor => cursor
  | c :: cs, l :: ls, p, cursor =>
      let newCursor := WTree.draw c l p
      WTree.drawChildren cs ls p
        (if newCursor ≠ MouseCursor.outOfBounds then newCursor else cursor)
end

mutual
/-- `Widget::hash` as implemented by `column.rs`: the column feeds its style
and its spacing to the hasher, then recurses into the children in order; a
leaf appends its widget's hash contribution. -/
def WTree.hash : WTree M → HashStream → HashStream
  | .leaf d, st => st ++ d.hashOut
  | .column style spacing cs, st =>
      WTree.hashChildren cs (st ++ style.tokens ++ [(spacing : Int)])
/-- The child loop of `Column::hash`. -/
def WTree.hashChildren : List (WTree M) → HashStream → HashStream
  | [], st => st
  | c :: cs, st => WTree.hashChildren cs (WTree.hash c st)
end

mutual
/-- The number of widgets in a tree (the column itself counts as one). -/
def WTree.size : WTree M → Nat
  | .leaf _ => 1
  | .column _ _ cs => 1 + WTree.sizeChildren cs
/-- Total widget count of a list of sibling trees. -/
def WTree.sizeChildren : List (WTree M) → Nat
  | [] => 0
  | c :: cs => WTree.size c + WTree.sizeChildren cs
end

mutual
/-- The spec's tree-shape invariant (§3): at every level the layout has
exactly as many children as the widget; a leaf widget matches any layout. -/
def WTree.matchesShape : WTree M → Layout → Bool
  | .leaf _, _ => true
  | .column _ _ cs, .mk _ ls => WTree.matchesShapeChildren cs ls
/-- Pairwise shape matching of sibling lists. -/
def WTree.matchesShapeChildren : List (WTree M) → List Layout → Bool
  | [], [] => true
  | _ :: _, [] => false
  | [], _ :: _ => false
  | c :: cs, l :: ls =>
      WTree.matchesShape c l && WTree.matchesShapeChildren cs ls
end

/-- The ui `Length` width policy: shrink to content, fill available space,
or a hard pixel constraint. -/
inductive Length where
  | shrink | fill | px : Nat → Length
  deriving DecidableEq, Repr

/-- `button.rs`'s `State`: an empty placeholder struct in the snapshot. -/
structure BtnState where
  deriving DecidableEq, Repr

/-- The `Button` widget: borrowed interaction state, a label, a width
policy, and an optional message emitted on click. -/
structure Button (M : Type) where
  state : BtnState
  label : String
  widthPolicy : Length
  clickMsg : Option M

namespace Button

/-- `Button::new(state, label)`: shrink width, no click message. -/
def new (state : BtnState) (label : String) : Button M :=
  { state := state, label := label, widthPolicy := .shrink, clickMsg := none }

/-- `Button::width`. -/
def width (b : Button M) (length : Length) : Button M :=
  { b with widthPolicy := length }

/-- `Button::on_click`. -/
def on_click (b : Button M) (msg : M) : Button M :=
  { b with clickMsg := some msg }

/-- `Button::node` from `button.rs`: default style with a fixed 40-point
height; `Fill` sets flex-grow to 1, `Px(w)` sets a pixel width, `Shrink`
sets nothing; the node has no children. -/
def node (b : Button M) : Node :=
  let style := StretchStyle.default
  let style := { style with size := { style.size with height := .points 40 } }
  let style :=
    match b.widthPolicy with
    | .shrink => style
    | .fill => { style with flexGrow := 1 }
    | .px w => { style with size := { style.size with width := .points w } }
  Node.mk style []

end Button

/-- Modelled from the spec: the Button interaction state that persists
across frames ("interaction state such as pressed/hover", §3); the `State`
struct in `button.rs` is an empty placeholder, so the pressed flag is
modelled here. -/
structure PressState where
  is_pressed : Bool
  deriving DecidableEq, Repr

/-- Modelled from the spec: `Button`'s event handling, absent from
`button.rs` (whose `Widget` impl has only `node`).  Per §4.2/§4.3 the leaf
hit-tests the cursor against its own resolved rectangle: a press inside
records the pressed state; a release while pressed emits the configured
message exactly once if the cursor is still inside, and in every case ends
the press; the message is appended to the shared messages sequence. -/
def Button.on_event (b : Button M) (st : PressState) (e : Event) (l : Layout)
    (p : Point) (msgs : List M) : PressState × List M :=
  match e with
  | .mousePressed =>
      if l.bounds.contains p then (⟨true⟩, msgs) else (st, msgs)
  | .mouseReleased =>
      if st.is_pressed && l.bounds.contains p then
        (⟨false⟩, msgs ++ b.clickMsg.toList)
      else
        (⟨false⟩, msgs)
  | .cursorMoved => (st, msgs)

/-! ## Concrete fixtures used in witnesses and counterexamples -/

/-- A leaf widget that reports a fixed cursor hint and is otherwise inert. -/
def leafHint (h : MouseCursor) : WTree Nat :=
  .leaf
    { nodeOut := .mk StretchStyle.default []
      hashOut := []
      drawOut := fun _ _ => h
      emits := fun _ _ _ => [] }

/-- A leaf widget that appends one fixed message on every event and is
otherwise inert. -/
def leafEmit (k : Nat) : WTree Nat :=
  .leaf
    { nodeOut := .mk StretchStyle.default []
      hashOut := []
      drawOut := fun _ _ => .outOfBounds
      emits := fun _ _ _ => [k] }

/-- A concrete resolved rectangle. -/
def rect0 : Rect := ⟨0, 0, 100, 100⟩

/-- A layout node with bounds `rect0` and `n` leaf layout children. -/
def layN (n : Nat) : Layout := .mk rect0 (List.replicate n (.mk rect0 []))

/-- A cursor position inside `rect0`. -/
def p0 : Point := ⟨1, 1⟩

/-- A cursor position outside `rect0` (outside every widget's bounds). -/
def pOut : Point := ⟨-5, -5⟩

/-! ## Helper lemmas -/

/-- The `cursor` accumulator loop of `Column::draw` computes the last
non-default hint among the zipped children's hints, defaulting to the
accumulator's initial value. -/
theorem drawChildren_getLastD {M : Type} (p : Point) :
    ∀ (cs : List (WTree M)) (ls : List Layout) (cursor : MouseCursor),
    WTree.drawChildren cs ls p cursor =
      (((cs.zip ls).map (fun cl => WTree.draw cl.1 cl.2 p)).filter
        (fun h => decide (h ≠ MouseCursor.outOfBounds))).getLastD cursor
  | [], ls, cursor => by simp [WTree.drawChildren]
  | _ :: _, [], cursor => by simp [WTree.drawChildren]
  | c :: cs, l :: ls, cursor => by
      by_cases h : WTree.draw c l p = MouseCursor.outOfBounds
      · simp only [WTree.drawChildren]
        rw [if_neg (fun hc => hc h), drawChildren_getLastD p cs ls cursor]
        simp [h]
      · simp only [WTree.drawChildren]
        rw [if_pos h, drawChildren_getLastD p cs ls (WTree.draw c l p)]
        rw [List.zip_cons_cons, List.map_cons, List.filter_cons,
          if_pos (by simpa using h), List.getLastD_cons]

/-- Rust `zip` truncation in `Column::on_event`: dispatch over the zipped
children equals dispatch with both lists truncated to each other's
length. -/
theorem on_eventChildren_take {M : Type} (e : Event) (p : Point) :
    ∀ (cs : List (WTree M)) (ls : List Layout) (msgs : List M),
    WTree.on_eventChildren cs ls e p msgs =
      WTree.on_eventChildren (cs.take ls.length) (ls.take cs.length) e p msgs
  | [], ls, msgs => by simp [WTree.on_eventChildren]
  | _ :: _, [], msgs => by simp [WTree.on_eventChildren]
  | c :: cs, l :: ls, msgs => by
      simp only [WTree.on_eventChildren, List.length_cons, List.take_succ_cons]
      rw [on_eventChildren_take e p cs ls]

/-- Rust `zip` truncation in `Column::draw`. -/
theorem drawChildren_take {M : Type} (p : Point) :
    ∀ (cs : List (WTree M)) (ls : List Layout) (cursor : MouseCursor),
    WTree.drawChildren cs ls p cursor =
      WTree.drawChildren (cs.take ls.length) (ls.take cs.length) p cursor
  | [], ls, cursor => by simp [WTree.drawChildren]
  | _ :: _, [], cursor => by simp [WTree.drawChildren]
  | c :: cs, l :: ls, cursor => by
      simp only [WTree.drawChildren, List.length_cons, List.take_succ_cons]
      rw [drawChildren_take p cs ls]

mutual
/-- When the layout's shape matches the widget tree, `on_event` performs one
recursive call per widget in the tree — every one of the `size` widgets is
visited exactly once, each receiving the unmodified cursor position. -/
theorem on_event_trace_replicate {M : Type} :
    ∀ (w : WTree M) (l : Layout) (e : Event) (p : Point) (msgs : List M),
    WTree.matchesShape w l = true →
    (WTree.on_event w l e p msgs).2 = List.replicate (WTree.size w) p
  | .leaf d, l, e, p, msgs, _ => by
      simp [WTree.on_event, WTree.size, List.replicate]
  | .column s sp cs, .mk r ls, e, p, msgs, h => by
      have hc : WTree.matchesShapeChildren cs ls = true := by
        simpa [WTree.matchesShape] using h
      simp only [WTree.on_event]
      rw [on_eventChildren_trace_replicate cs ls e p msgs hc]
      rw [WTree.size, Nat.add_comm, List.replicate_succ]
/-- Sibling-list version of `on_event_trace_replicate`. -/
theorem on_eventChildren_trace_replicate {M : Type} :
    ∀ (cs : List (WTree M)) (ls : List Layout) (e : Event) (p : Point)
      (msgs : List M),
    WTree.matchesShapeChildren cs ls = true →
    (WTree.on_eventChildren cs ls e p msgs).2 =
      List.replicate (WTree.sizeChildren cs) p
  | [], [], _, _, _, _ => by
      simp [WTree.on_eventChildren, WTree.sizeChildren]
  | [], _ :: _, _, _, _, h => by
      simp [WTree.matchesShapeChildren] at h
  | _ :: _, [], _, _, _, h => by
      simp [WTree.matchesShapeChildren] at h
  | c :: cs, l :: ls, e, p, msgs, h => by
      have h12 : WTree.matchesShape c l = true ∧
          WTree.matchesShapeChildren cs ls = true := by
        simpa [WTree.matchesShapeChildren, Bool.and_eq_true] using h
      simp only [WTree.on_eventChildren]
      rw [on_event_trace_replicate c l e p msgs h12.1,
        on_eventChildren_trace_replicate cs ls e p _ h12.2,
        WTree.sizeChildren, List.replicate_add]
end

/-- `modifyLast` preserves the length of the list. -/
theorem modifyLast_length (f : Node → Node) :
    ∀ l : List Node, (modifyLast f l).length = l.length
  | [] => rfl
  | [_] => rfl
  | n :: m :: ns => by
      simp only [modifyLast, List.length_cons]
      rw [modifyLast_length f (m :: ns), List.length_cons]

/-- The mapped child-node list of `Column::node` has one node per child. -/
theorem nodeChildren_length {M : Type} (sp : Nat) :
    ∀ cs : List (WTree M), (WTree.nodeChildren sp cs).length = cs.length
  | [] => rfl
  | c :: cs => by
      simp only [WTree.nodeChildren, List.length_cons]
      rw [nodeChildren_length sp cs]

/-- Setting the bottom margin twice keeps only the second value. -/
theorem setBottomMargin_bottom (n : Node) (d : Dimension) :
    (n.setBottomMargin d).style.margin.bottom = d := by
  cases n; rfl

/-- Every node produced by `Column::node` for a child carries the margin
policy: bottom margin `Points(spacing)` for every child except the last,
whose bottom margin is reset to `Undefined`. -/
theorem column_node_margin_at {M : Type} (sp : Nat) :
    ∀ (cs : List (WTree M)) (i : Nat) (n : Node),
    (modifyLast (fun n => n.setBottomMargin .undefined)
        (WTree.nodeChildren sp cs))[i]? = some n →
    n.style.margin.bottom =
      (if i + 1 = cs.length then Dimension.undefined
       else .points (Int.ofNat sp))
  | [], i, n => by simp [WTree.nodeChildren, modifyLast]
  | [c], i, n => by
      cases i with
      | zero =>
          intro h
          simp only [WTree.nodeChildren, modifyLast,
            List.getElem?_cons_zero, Option.some_inj] at h
          subst h
          simp [setBottomMargin_bottom]
      | succ j =>
          intro h
          simp [WTree.nodeChildren, modifyLast] at h
  | c :: c2 :: cs, i, n => by
      cases i with
      | zero =>
          intro h
          have hmod : modifyLast (fun n => n.setBottomMargin .undefined)
              (WTree.nodeChildren sp (c :: c2 :: cs)) =
              (WTree.node c).setBottomMargin (.points (Int.ofNat sp)) ::
                modifyLast (fun n => n.setBottomMargin .undefined)
                  (WTree.nodeChildren sp (c2 :: cs)) := by
            simp [WTree.nodeChildren, modifyLast]
          rw [hmod, List.getElem?_cons_zero, Option.some_inj] at h
          subst h
          simp [setBottomMargin_bottom]
      | succ j =>
          intro h
          have hmod : modifyLast (fun n => n.setBottomMargin .undefined)
              (WTree.nodeChildren sp (c :: c2 :: cs)) =
              (WTree.node c).setBottomMargin (.points (Int.ofNat sp)) ::
                modifyLast (fun n => n.setBottomMargin .undefined)
                  (WTree.nodeChildren sp (c2 :: cs)) := by
            simp [WTree.nodeChildren, modifyLast]
          rw [hmod, List.getElem?_cons_succ] at h
          have := column_node_margin_at sp (c2 :: cs) j n h
          simpa [List.length_cons, Nat.succ_eq_add_one] using this

/-! ## Claim theorems -/

/-- C1 counterexample: a Column with two children reporting the non-default
hints `pointer` then `grab` returns `grab` — the LAST non-default hint, not
the first; the later child's hint overrides the already-set one. -/
theorem column_draw_first_hint_cex :
    WTree.draw (leafHint MouseCursor.pointer) (Layout.mk rect0 []) p0 =
      MouseCursor.pointer ∧
    WTree.draw (leafHint MouseCursor.grab) (Layout.mk rect0 []) p0 =
      MouseCursor.grab ∧
    WTree.draw
      (WTree.column Style.default 0
        [leafHint MouseCursor.pointer, leafHint MouseCursor.grab])
      (layN 2) p0 = MouseCursor.grab ∧
    MouseCursor.grab ≠ MouseCursor.pointer :=
  ⟨rfl, rfl, rfl, by decide⟩

/-- C1 (amended): `Column::draw` returns the LAST non-default cursor hint
encountered in child order (over the zipped children), defaulting to
`OutOfBounds` when every child reports the default; a non-default hint
reported by a later child overrides an already-set hint. -/
theorem column_draw_last_nondefault_hint {M : Type} (s : Style) (sp : Nat)
    (cs : List (WTree M)) (r : Rect) (ls : List Layout) (p : Point) :
    WTree.draw (.column s sp cs) (.mk r ls) p =
      (((cs.zip ls).map (fun cl => WTree.draw cl.1 cl.2 p)).filter
        (fun h => decide (h ≠ MouseCursor.outOfBounds))).getLastD
        MouseCursor.outOfBounds := by
  simp only [WTree.draw]
  exact drawChildren_getLastD p cs ls _

/-- C2: the Node tree of `Column::node` has one child node per widget child;
each of the first N-1 gets bottom margin `Points(spacing)` and the last
child's bottom margin is cleared to `Undefined`. -/
theorem column_node_spacing_last_margin_cleared {M : Type} (s : Style)
    (sp : Nat) (cs : List (WTree M)) :
    (WTree.node (.column s sp cs)).children.length = cs.length ∧
    (∀ (i : Nat) (n : Node),
      (WTree.node (.column s sp cs)).children[i]? = some n →
      n.style.margin.bottom =
        (if i + 1 = cs.length then Dimension.undefined
         else .points (Int.ofNat sp))) := by
  constructor
  · simp only [WTree.node, Node.with_children, Node.children]
    rw [modifyLast_length, nodeChildren_length]
  · intro i n h
    apply column_node_margin_at sp cs i n
    simpa [WTree.node, Node.with_children, Node.children] using h

/-- The first child node of the spacing-7 two-child example column. -/
def nodeChild07 : Node :=
  (Node.mk StretchStyle.default []).setBottomMargin (.points (Int.ofNat 7))

/-- The last child node of the spacing-7 two-child example column. -/
def nodeChild17 : Node :=
  ((Node.mk StretchStyle.default []).setBottomMargin
    (.points (Int.ofNat 7))).setBottomMargin .undefined

/-- C2 witness: a concrete two-child column with spacing 7 — the first
child's bottom margin is 7 points, the last child's is `Undefined`. -/
theorem column_node_spacing_witness :
    (WTree.node (WTree.column Style.default 7 [leafEmit 1, leafEmit 2])
      ).children.length = 2 ∧
    nodeChild07.style.margin.bottom =
      (if 0 + 1 = 2 then Dimension.undefined
       else .points (Int.ofNat 7)) ∧
    nodeChild17.style.margin.bottom =
      (if 1 + 1 = 2 then Dimension.undefined
       else .points (Int.ofNat 7)) :=
  ⟨(column_node_spacing_last_margin_cleared Style.default 7
      [leafEmit 1, leafEmit 2]).1,
   (column_node_spacing_last_margin_cleared Style.default 7
      [leafEmit 1, leafEmit 2]).2 0 nodeChild07 rfl,
   (column_node_spacing_last_margin_cleared Style.default 7
      [leafEmit 1, leafEmit 2]).2 1 nodeChild17 rfl⟩

/-- C3 counterexample: a Column with two widget children dispatched against
a layout with one child neither asserts nor panics — `on_event` is a total
function that returns normally, emitting only the first child's message and
visiting only 2 of the 3 widgets (the unmatched widget is silently
skipped). -/
theorem column_mismatch_silent_skip_cex :
    (layN 1).children.length = 1 ∧
    WTree.sizeChildren [leafEmit 1, leafEmit 2] = 2 ∧
    (WTree.on_event (WTree.column Style.default 0 [leafEmit 1, leafEmit 2])
      (layN 1) Event.mousePressed p0 []).1 = [1] ∧
    (WTree.on_event (WTree.column Style.default 0 [leafEmit 1, leafEmit 2])
      (layN 1) Event.mousePressed p0 []).2.length = 2 ∧
    WTree.size (WTree.column Style.default 0 [leafEmit 1, leafEmit 2]) = 3 :=
  ⟨rfl, rfl, rfl, rfl, rfl⟩

/-- C3 (amended): when the number of layout children differs from the
number of widget children, `Column::on_event` and `Column::draw` do not
panic: they silently iterate over the pairwise zip, processing only the
common prefix and skipping the unmatched widgets or layouts — dispatch
behaves exactly as if both child lists were truncated to each other's
length. -/
theorem column_dispatch_zip_truncates {M : Type} (s : Style) (sp : Nat)
    (cs : List (WTree M)) (r : Rect) (ls : List Layout) (e : Event)
    (p : Point) (msgs : List M) :
    WTree.on_event (.column s sp cs) (.mk r ls) e p msgs =
      WTree.on_event (.column s sp (cs.take ls.length))
        (.mk r (ls.take cs.length)) e p msgs ∧
    WTree.draw (.column s sp cs) (.mk r ls) p =
      WTree.draw (.column s sp (cs.take ls.length))
        (.mk r (ls.take cs.length)) p := by
  constructor
  · simp only [WTree.on_event]
    rw [← on_eventChildren_take e p cs ls msgs]
  · simp only [WTree.draw]
    rw [← drawChildren_take p cs ls]

/-- C4: when the layout's shape matches the widget tree, dispatching one
event via `on_event` visits every one of the tree's `size` widgets exactly
once — no early termination — and every recursive call receives the same
unmodified cursor position (the visit trace is `size` copies of the cursor
position, wherever the cursor lies). -/
theorem on_event_visits_every_widget_once {M : Type} (w : WTree M)
    (l : Layout) (e : Event) (p : Point) (msgs : List M)
    (h : WTree.matchesShape w l = true) :
    (WTree.on_event w l e p msgs).2 = List.replicate (WTree.size w) p :=
  on_event_trace_replicate w l e p msgs h

/-- C4 witness: a concrete three-widget tree with a matching layout and the
cursor outside every widget's bounds — all 3 widgets are visited, each with
the same cursor position. -/
theorem on_event_visits_witness :
    (WTree.on_event
      (WTree.column Style.default 0 [leafEmit 1, leafEmit 2]) (layN 2)
      Event.mousePressed pOut []).2 =
      List.replicate
        (WTree.size (WTree.column Style.default 0 [leafEmit 1, leafEmit 2]))
        pOut :=
  on_event_visits_every_widget_once
    (WTree.column Style.default 0 [leafEmit 1, leafEmit 2]) (layN 2)
    Event.mousePressed pOut [] (by decide)

/-- C5 (spec-modelled): a Button configured with click message `m` emits
nothing on a press alone; a press inside its resolved rectangle followed by
a release inside emits exactly one copy of `m`; a press inside followed by
a release outside emits nothing. -/
theorem button_click_exactly_once {M : Type} (b : Button M) (m : M)
    (l : Layout) (pIn pIn2 pOutside : Point) (msgs : List M)
    (hm : b.clickMsg = some m)
    (h1 : l.bounds.contains pIn = true)
    (h2 : l.bounds.contains pIn2 = true)
    (h3 : l.bounds.contains pOutside = false) :
    (Button.on_event b ⟨false⟩ .mousePressed l pIn msgs).2 = msgs ∧
    (Button.on_event b (Button.on_event b ⟨false⟩ .mousePressed l pIn msgs).1
      .mouseReleased l pIn2 msgs).2 = msgs ++ [m] ∧
    (Button.on_event b (Button.on_event b ⟨false⟩ .mousePressed l pIn msgs).1
      .mouseReleased l pOutside msgs).2 = msgs := by
  refine ⟨?_, ?_, ?_⟩ <;>
    simp [Button.on_event, h1, h2, h3, hm, Option.toList]

/-- C5 witness: a concrete button with message 5 over a concrete rectangle;
press inside emits nothing, press-then-release inside emits exactly `[5]`,
press inside then release outside emits nothing. -/
theorem button_click_witness :
    (Button.on_event ((Button.new ⟨⟩ "ok").on_click 5) ⟨false⟩ .mousePressed
      (Layout.mk rect0 []) p0 []).2 = [] ∧
    (Button.on_event ((Button.new ⟨⟩ "ok").on_click 5)
      (Button.on_event ((Button.new ⟨⟩ "ok").on_click 5) ⟨false⟩
        .mousePressed (Layout.mk rect0 []) p0 []).1
      .mouseReleased (Layout.mk rect0 []) p0 []).2 = [] ++ [5] ∧
    (Button.on_event ((Button.new ⟨⟩ "ok").on_click 5)
      (Button.on_event ((Button.new ⟨⟩ "ok").on_click 5) ⟨false⟩
        .mousePressed (Layout.mk rect0 []) p0 []).1
      .mouseReleased (Layout.mk rect0 []) pOut []).2 = [] :=
  button_click_exactly_once ((Button.new ⟨⟩ "ok").on_click 5) 5
    (Layout.mk rect0 []) p0 p0 pOut [] rfl (by decide) (by decide) (by decide)

/-- C6 counterexample: two empty Columns differing only in spacing produce
identical Node trees (spacing affects no margin when there is no child) yet
different hash streams, because `Column::hash` always hashes the spacing. -/
theorem hash_differs_on_node_identical_trees_cex :
    WTree.node (WTree.column Style.default 0 ([] : List (WTree Nat))) =
      WTree.node (WTree.column Style.default 1 ([] : List (WTree Nat))) ∧
    WTree.hash (WTree.column Style.default 0 ([] : List (WTree Nat))) [] ≠
      WTree.hash (WTree.column Style.default 1 ([] : List (WTree Nat))) [] :=
  ⟨rfl, by decide⟩

/-- C6 (amended): identical Node trees do not guarantee identical hashes —
spacing is hashed even when it cannot affect the Node tree (a column with
fewer than two children).  What holds: a Column's hash is determined by its
hashed fields alone — two Columns with equal style, equal spacing, and
children contributing equal hash streams hash identically, whatever else
(draw behaviour, event behaviour) distinguishes the children. -/
theorem column_hash_determined_by_hashed_fields {M : Type} (s : Style)
    (sp : Nat) (cs1 cs2 : List (WTree M))
    (h : ∀ st, WTree.hashChildren cs1 st = WTree.hashChildren cs2 st) :
    ∀ st, WTree.hash (.column s sp cs1) st =
      WTree.hash (.column s sp cs2) st := by
  intro st
  simp only [WTree.hash]
  exact h _

/-- C6 witness: two concrete one-child columns whose children differ in
draw behaviour but contribute equal hash streams hash identically. -/
theorem column_hash_parts_witness :
    WTree.hash (WTree.column Style.default 3 [leafHint MouseCursor.pointer])
      [] =
    WTree.hash (WTree.column Style.default 3 [leafHint MouseCursor.grab])
      [] :=
  column_hash_determined_by_hashed_fields Style.default 3
    [leafHint MouseCursor.pointer] [leafHint MouseCursor.grab]
    (fun _ => rfl) []

/-- C7: `Button::node` produces a leaf node (no children) with a fixed
40-point height; `Fill` sets flex-grow to 1 and leaves the width unset,
`Px(n)` sets a hard pixel width and leaves flex-grow at 0, and `Shrink`
sets neither width nor flex-grow. -/
theorem button_node_leaf_fixed_height (M : Type) :
    (∀ b : Button M, (Button.node b).children = [] ∧
      (Button.node b).style.size.height = .points 40) ∧
    (∀ (st : BtnState) (lbl : String) (msg : Option M),
      (Button.node (Button.mk st lbl .fill msg)).style.flexGrow = 1 ∧
      (Button.node (Button.mk st lbl .fill msg)).style.size.width = .auto) ∧
    (∀ (st : BtnState) (lbl : String) (msg : Option M) (n : Nat),
      (Button.node (Button.mk st lbl (.px n) msg)).style.size.width =
        .points (Int.ofNat n) ∧
      (Button.node (Button.mk st lbl (.px n) msg)).style.flexGrow = 0) ∧
    (∀ (st : BtnState) (lbl : String) (msg : Option M),
      (Button.node (Button.mk st lbl .shrink msg)).style.size.width =
        .auto ∧
      (Button.node (Button.mk st lbl .shrink msg)).style.flexGrow = 0) := by
  refine ⟨?_, ?_, ?_, ?_⟩
  · intro b
    obtain ⟨st, lbl, w, msg⟩ := b
    cases w <;> exact ⟨rfl, rfl⟩
  · intro st lbl msg; exact ⟨rfl, rfl⟩
  · intro st lbl msg n; exact ⟨rfl, rfl⟩
  · intro st lbl msg; exact ⟨rfl, rfl⟩

/-- C8: `Column::push` appends the element to the end of the children
sequence leaving style and spacing unchanged, and every builder setter
(`width`, `height`, `max_width`, `max_height`, `padding`, `align_self`,
`align_items`, `justify_content`) rewrites only the Column's style — the
corresponding `Style` operation — leaving spacing and children unchanged;
each returns the modified Column for chaining. -/
theorem column_builders_only_style_and_children (M : Type) :
    (∀ (c : Column M) (e : WTree M),
      (c.push e).children = c.children ++ [e] ∧
      (c.push e).style = c.style ∧ (c.push e).spacing = c.spacing) ∧
    (∀ (c : Column M) (px : Nat),
      (c.padding px).style = c.style.padding px ∧
      (c.padding px).spacing = c.spacing ∧
      (c.padding px).children = c.children) ∧
    (∀ (c : Column M) (w : Nat),
      (c.width w).style = c.style.width w ∧
      (c.width w).spacing = c.spacing ∧ (c.width w).children = c.children) ∧
    (∀ (c : Column M) (h : Nat),
      (c.height h).style = c.style.height h ∧
      (c.height h).spacing = c.spacing ∧
      (c.height h).children = c.children) ∧
    (∀ (c : Column M) (w : Nat),
      (c.max_width w).style = c.style.max_width w ∧
      (c.max_width w).spacing = c.spacing ∧
      (c.max_width w).children = c.children) ∧
    (∀ (c : Column M) (h : Nat),
      (c.max_height h).style = c.style.max_height h ∧
      (c.max_height h).spacing = c.spacing ∧
      (c.max_height h).children = c.children) ∧
    (∀ (c : Column M) (a : Align),
      (c.align_self a).style = c.style.align_self a ∧
      (c.align_self a).spacing = c.spacing ∧
      (c.align_self a).children = c.children) ∧
    (∀ (c : Column M) (a : Align),
      (c.align_items a).style = c.style.align_items a ∧
      (c.align_items a).spacing = c.spacing ∧
      (c.align_items a).children = c.children) ∧
    (∀ (c : Column M) (j : Justify),
      (c.justify_content j).style = c.style.justify_content j ∧
      (c.justify_content j).spacing = c.spacing ∧
      (c.justify_content j).children = c.children) :=
  ⟨fun _ _ => ⟨rfl, rfl, rfl⟩, fun _ _ => ⟨rfl, rfl, rfl⟩,
   fun _ _ => ⟨rfl, rfl, rfl⟩, fun _ _ => ⟨rfl, rfl, rfl⟩,
   fun _ _ => ⟨rfl, rfl, rfl⟩, fun _ _ => ⟨rfl, rfl, rfl⟩,
   fun _ _ => ⟨rfl, rfl, rfl⟩, fun _ _ => ⟨rfl, rfl, rfl⟩,
   fun _ _ => ⟨rfl, rfl, rfl⟩⟩

/-- C9: hashing is a deterministic function of the tree's content — two
Columns with the same style values, the same spacing and the same children
in the same order, hashed into equal-initial-state hashers, yield identical
hash output. -/
theorem hash_deterministic_on_identical_trees {M : Type}
    (s1 s2 : Style) (sp1 sp2 : Nat) (cs1 cs2 : List (WTree M))
    (st1 st2 : HashStream)
    (hs : s1 = s2) (hsp : sp1 = sp2) (hcs : cs1 = cs2) (hst : st1 = st2) :
    WTree.hash (.column s1 sp1 cs1) st1 =
      WTree.hash (.column s2 sp2 cs2) st2 := by
  rw [hs, hsp, hcs, hst]

/-- C9 witness: a concrete column hashed twice from the empty stream. -/
theorem hash_deterministic_witness :
    WTree.hash (WTree.column Style.default 2 [leafEmit 1]) [] =
      WTree.hash (WTree.column Style.default 2 [leafEmit 1]) [] :=
  hash_deterministic_on_identical_trees Style.default Style.default 2 2
    [leafEmit 1] [leafEmit 1] [] [] rfl rfl rfl rfl

/-- C10: a Column with zero children is inert — for every layout, event and
cursor position, `draw` returns the default hint `OutOfBounds` and
`on_event` leaves the messages sequence unchanged. -/
theorem empty_column_default_cursor_and_no_messages {M : Type} (s : Style)
    (sp : Nat) (l : Layout) (e : Event) (p : Point) (msgs : List M) :
    (WTree.on_event (.column s sp ([] : List (WTree M))) l e p msgs).1 =
      msgs ∧
    WTree.draw (.column s sp ([] : List (WTree M))) l p =
      MouseCursor.outOfBounds := by
  cases l with
  | mk r ls => exact ⟨rfl, rfl⟩
